import Mathlib

/-!
Verification of the AI form-filling agent (Playwright + LLM perceive-think-act loop).

The development shallowly embeds the repository's core:
* the action-extraction step `text.match(/\x7b[\s\S]*\x7d/)` followed by `JSON.parse`
  (src/main.ts, parse block of `main`),
* the page serializer `getSerializedPage`,
* the agentic loop `main` with its step budget, conversation history, dispatch
  switch and `finally`-guaranteed browser close,
* the Express handler `runWorkflowHandler` of src/server.ts.

External collaborators (the LLM, the live page, the browser) are modeled as an
explicit environment `Env` that decides, per step, what text the model returns
and whether each I/O interaction succeeds or throws.
-/

namespace FormAgent

/-- JSON values as produced by `JSON.parse`.  Number literals keep their lexeme:
no claim inspects numeric values, only string-valued fields. -/
inductive Json where
  | null
  | bool (b : Bool)
  | num (lexeme : String)
  | str (s : String)
  | arr (elems : List Json)
  | obj (fields : List (String × Json))

/-- JSON whitespace characters (space, tab, line feed, carriage return). -/
def isWs (c : Char) : Bool :=
  c == ' ' || c == '\t' || c == '\n' || c == '\r'

/-- Drop leading JSON whitespace. -/
def skipWs (cs : List Char) : List Char :=
  cs.dropWhile isWs

/-- Value of a hexadecimal digit, for string escapes of the form backslash-u. -/
def hexVal (c : Char) : Option Nat :=
  if c.isDigit then some (c.toNat - '0'.toNat)
  else if 'a' ≤ c ∧ c ≤ 'f' then some (c.toNat - 'a'.toNat + 10)
  else if 'A' ≤ c ∧ c ≤ 'F' then some (c.toNat - 'A'.toNat + 10)
  else none

/-- Parse the body of a JSON string after the opening quote, returning the
decoded characters and the input remaining after the closing quote.
Strict JSON: unescaped control characters and unknown escapes are errors. -/
def parseStringBody : Nat → List Char → Option (List Char × List Char)
  | 0, _ => none
  | _, [] => none
  | fuel + 1, c :: rest =>
    if c == '"' then some ([], rest)
    else if c == '\\' then
      match rest with
      | [] => none
      | e :: rest2 =>
        let dec : Option (Char × List Char) :=
          if e == '"' then some ('"', rest2)
          else if e == '\\' then some ('\\', rest2)
          else if e == '/' then some ('/', rest2)
          else if e == 'b' then some ('\x08', rest2)
          else if e == 'f' then some ('\x0c', rest2)
          else if e == 'n' then some ('\n', rest2)
          else if e == 'r' then some ('\r', rest2)
          else if e == 't' then some ('\t', rest2)
          else if e == 'u' then
            match rest2 with
            | h1 :: h2 :: h3 :: h4 :: rest3 =>
              match hexVal h1, hexVal h2, hexVal h3, hexVal h4 with
              | some a, some b, some c2, some d =>
                some (Char.ofNat (((a * 16 + b) * 16 + c2) * 16 + d), rest3)
              | _, _, _, _ => none
            | _ => none
          else none
        match dec with
        | some (ch, rest3) =>
          match parseStringBody fuel rest3 with
          | some (chars, rem) => some (ch :: chars, rem)
          | none => none
        | none => none
    else if c.toNat < 32 then none
    else
      match parseStringBody fuel rest with
      | some (chars, rem) => some (c :: chars, rem)
      | none => none

/-- Take the leading run of decimal digits, returning it and the rest. -/
def takeDigits (cs : List Char) : List Char × List Char :=
  (cs.takeWhile Char.isDigit, cs.dropWhile Char.isDigit)

/-- Integer part of a JSON number: `0`, or a nonzero digit followed by digits. -/
def parseIntPart : List Char → Option (List Char × List Char)
  | [] => none
  | c :: rest =>
    if c == '0' then some (['0'], rest)
    else if c.isDigit then
      match takeDigits rest with
      | (ds, r) => some (c :: ds, r)
    else none

/-- Optional fractional part of a JSON number: a dot followed by one or more digits. -/
def parseFracPart (cs : List Char) : Option (List Char × List Char) :=
  match cs with
  | '.' :: t =>
    match takeDigits t with
    | ([], _) => none
    | (ds, r) => some ('.' :: ds, r)
  | _ => some ([], cs)

/-- Optional exponent part of a JSON number. -/
def parseExpPart (cs : List Char) : Option (List Char × List Char) :=
  match cs with
  | e :: t =>
    if e == 'e' || e == 'E' then
      let signAndRest : List Char × List Char :=
        match t with
        | c :: tt => if c == '+' || c == '-' then ([c], tt) else ([], t)
        | [] => ([], t)
      match takeDigits signAndRest.2 with
      | ([], _) => none
      | (ds, r) => some (e :: (signAndRest.1 ++ ds), r)
    else some ([], cs)
  | [] => some ([], cs)

/-- A full JSON number lexeme: optional minus, integer part, optional fraction
and exponent. -/
def parseNumberLex (cs : List Char) : Option (List Char × List Char) :=
  let negAndRest : List Char × List Char :=
    match cs with
    | '-' :: t => (['-'], t)
    | _ => ([], cs)
  match parseIntPart negAndRest.2 with
  | none => none
  | some (ip, r1) =>
    match parseFracPart r1 with
    | none => none
    | some (fp, r2) =>
      match parseExpPart r2 with
      | none => none
      | some (ep, r3) => some (negAndRest.1 ++ ip ++ fp ++ ep, r3)

mutual

/-- Parse one JSON value, fueled for termination.  Mirrors the grammar
`JSON.parse` accepts. -/
def parseValue : Nat → List Char → Option (Json × List Char)
  | 0, _ => none
  | fuel + 1, cs =>
    match skipWs cs with
    | [] => none
    | c :: rest =>
      if c == '"' then
        match parseStringBody fuel rest with
        | some (chars, rem) => some (.str (String.mk chars), rem)
        | none => none
      else if c == '\x7b' then parseObjRest fuel rest
      else if c == '[' then parseArrRest fuel rest
      else if c == 't' then
        match rest with
        | 'r' :: 'u' :: 'e' :: rem => some (.bool true, rem)
        | _ => none
      else if c == 'f' then
        match rest with
        | 'a' :: 'l' :: 's' :: 'e' :: rem => some (.bool false, rem)
        | _ => none
      else if c == 'n' then
        match rest with
        | 'u' :: 'l' :: 'l' :: rem => some (.null, rem)
        | _ => none
      else if c == '-' || c.isDigit then
        match parseNumberLex (c :: rest) with
        | some (lex, rem) => some (.num (String.mk lex), rem)
        | none => none
      else none

/-- Parse the members of a JSON object after the opening brace, when the object
is not empty. -/
def parseMembers : Nat → List Char → List (String × Json) → Option (Json × List Char)
  | 0, _, _ => none
  | fuel + 1, cs, acc =>
    match skipWs cs with
    | '"' :: rest =>
      match parseStringBody fuel rest with
      | some (kchars, r1) =>
        match skipWs r1 with
        | ':' :: r2 =>
          match parseValue fuel r2 with
          | some (v, r3) =>
            match skipWs r3 with
            | ',' :: r4 => parseMembers fuel r4 (acc ++ [(String.mk kchars, v)])
            | '\x7d' :: r4 => some (.obj (acc ++ [(String.mk kchars, v)]), r4)
            | _ => none
          | none => none
        | _ => none
      | none => none
    | _ => none

/-- Parse a JSON object after its opening brace has been consumed. -/
def parseObjRest : Nat → List Char → Option (Json × List Char)
  | 0, _ => none
  | fuel + 1, cs =>
    match skipWs cs with
    | '\x7d' :: rem => some (.obj [], rem)
    | _ => parseMembers fuel cs []

/-- Parse the items of a JSON array after the opening bracket, when the array
is not empty. -/
def parseItems : Nat → List Char → List Json → Option (Json × List Char)
  | 0, _, _ => none
  | fuel + 1, cs, acc =>
    match parseValue fuel cs with
    | some (v, r1) =>
      match skipWs r1 with
      | ',' :: r2 => parseItems fuel r2 (acc ++ [v])
      | ']' :: r2 => some (.arr (acc ++ [v]), r2)
      | _ => none
    | none => none

/-- Parse a JSON array after its opening bracket has been consumed. -/
def parseArrRest : Nat → List Char → Option (Json × List Char)
  | 0, _ => none
  | fuel + 1, cs =>
    match skipWs cs with
    | ']' :: rem => some (.arr [], rem)
    | _ => parseItems fuel cs []

end

/-- The `JSON.parse` model: parse one value and require that only whitespace
remains.  The fuel is generous for any input the run can produce. -/
def jsonParse (cs : List Char) : Option Json :=
  match parseValue (2 * cs.length + 8) cs with
  | some (v, rest) => if skipWs rest = [] then some v else none
  | none => none

/-- Field access `obj[key]` on a parsed JSON value; as in JavaScript, a
duplicated key keeps the last binding, and non-objects have no fields. -/
def getField (j : Json) (key : String) : Option Json :=
  match j with
  | .obj fields => ((fields.filter (fun p => p.1 == key)).getLast?).map (fun p => p.2)
  | _ => none

/-- Remove everything after the last closing brace of the list (which is
assumed to contain one): the greedy tail of the regex match. -/
def dropAfterLastClose (cs : List Char) : List Char :=
  (cs.reverse.dropWhile (fun c => !(c == '\x7d'))).reverse

/-- The extraction `text.match(/\x7b[\s\S]*\x7d/)` of src/main.ts: the match, if
any, runs from the first opening brace that has some later closing brace up to
the last closing brace of the whole text (the quantifier is greedy). -/
def extractJson : List Char → Option (List Char)
  | [] => none
  | c :: rest =>
    if c = '\x7b' ∧ '\x7d' ∈ rest then some (c :: dropAfterLastClose rest)
    else extractJson rest

/-- The parse step of `main`: extract the brace-delimited substring, then
`JSON.parse` it; `none` is the caught parse-failure path. -/
def parseAction (text : String) : Option Json :=
  match extractJson text.data with
  | some cs => jsonParse cs
  | none => none

/-! ## Workflow data and prompts -/

/-- The runtime shape of `WorkflowData` (src/main.ts): `firstName` and
`lastName` are required by the TypeScript interface, the rest optional; at the
HTTP boundary the type is erased, so every field may be absent and is modeled
as an option. -/
structure WorkflowData where
  firstName : Option String
  lastName : Option String
  dateOfBirth : Option String
  medicalId : Option String
  gender : Option String
  bloodType : Option String
  allergies : Option String
  currentMedications : Option String
  emergencyContactName : Option String
  emergencyContactPhone : Option String

/-- One escaped character of a JSON string literal, as `JSON.stringify` emits it. -/
def escChar (c : Char) : List Char :=
  if c == '"' then ['\\', '"']
  else if c == '\\' then ['\\', '\\']
  else if c == '\n' then ['\\', 'n']
  else if c == '\r' then ['\\', 'r']
  else if c == '\t' then ['\\', 't']
  else if c == '\x08' then ['\\', 'b']
  else if c == '\x0c' then ['\\', 'f']
  else if c.toNat < 32 then
    let hexDigit : Nat → Char := fun n => if n < 10 then Char.ofNat ('0'.toNat + n) else Char.ofNat ('a'.toNat + n - 10)
    ['\\', 'u', '0', '0', hexDigit (c.toNat / 16), hexDigit (c.toNat % 16)]
  else [c]

/-- A JSON string literal for `s`. -/
def jsonQuote (s : String) : String :=
  "\"" ++ String.mk (s.data.map escChar).flatten ++ "\""

/-- The serialization `JSON.stringify(data)` used to build the objective, with
fields in declaration order (the property order of the record literals this
repository's callers construct); absent fields are omitted. -/
def stringifyData (d : WorkflowData) : String :=
  let pairs : List (String × Option String) :=
    [("firstName", d.firstName), ("lastName", d.lastName), ("dateOfBirth", d.dateOfBirth),
     ("medicalId", d.medicalId), ("gender", d.gender), ("bloodType", d.bloodType),
     ("allergies", d.allergies), ("currentMedications", d.currentMedications),
     ("emergencyContactName", d.emergencyContactName), ("emergencyContactPhone", d.emergencyContactPhone)]
  let rendered := pairs.filterMap (fun p => p.2.map (fun v => jsonQuote p.1 ++ ":" ++ jsonQuote v))
  "\x7b" ++ String.intercalate "," rendered ++ "\x7d"

/-- The objective string of `main` (src/main.ts line 107). -/
def objectiveOf (d : WorkflowData) : String :=
  "Your goal is to fill out this medical form with these details: " ++ stringifyData d ++ "."

/-- The system prompt template of `main` (src/main.ts lines 110-122). -/
def systemPromptOf (objective : String) : String :=
  "\n      You are an AI agent filling a web form. Your objective is: " ++ objective ++ ".\n      Your response MUST be a single, valid JSON object and nothing else.\n      \n      **RULES:**\n      1. For the \"label\" in your JSON response, you MUST use the visible text of the form field's label (e.g., \"First Name\", \"Date of Birth\"), not the HTML 'name' attribute (e.g., \"firstName\").\n      2. For the \"name\" in a click action, use the visible text of the button or header.\n      3. First, fill all fields specified in the objective. Do not fill fields that are already correctly filled.\n      4. After all fields are filled, your next action MUST be to click the 'Submit' button.\n      5. Only after you have clicked 'Submit' should you respond with \x7b\"action\": \"finish\"\x7d.\n\n      Available actions: \x7b\"action\": \"fill\", \"label\": \"...\"\x7d, \x7b\"action\": \"click\", \"role\": \"button\", \"name\": \"...\"\x7d, \x7b\"action\": \"select\", \"label\": \"...\"\x7d, \x7b\"action\": \"finish\"\x7d.\n    "

/-- The per-step user prompt of `main` (src/main.ts line 135). -/
def currentPromptOf (pageElements : String) : String :=
  "Based on our history and the current page state, what is the next action? Page state:\n```html\n" ++ pageElements ++ "\n```"

/-- The corrective message pushed after a parse failure (src/main.ts line 163). -/
def invalidJsonReply : String :=
  "Your last response was invalid JSON. Please try again."

/-! ## The agentic loop -/

/-- Message roles of the `ai` package's `CoreMessage`. -/
inductive Role where
  | system
  | user
  | assistant
deriving DecidableEq

/-- One conversation-history message. -/
structure Msg where
  role : Role
  content : String
deriving DecidableEq

/-- A page mutation requested by the dispatch switch.  Arguments carry the raw
JSON field values of the action object (absent fields stay absent). -/
inductive PageOp where
  | fill (label value : Option Json)
  | click (role name : Option Json)
  | select (label value : Option Json)

/-- The mutable state of one run of the loop: the conversation history and the
ordered trace of page mutations performed so far. -/
structure LoopState where
  history : List Msg
  trace : List PageOp

/-- Control signal of one step: proceed to the next iteration, return from
`main` (the `finish` case), or throw out of the loop. -/
inductive StepSig where
  | next
  | done
  | fatal
deriving DecidableEq

/-- How a run ends: a dispatched `finish`, the step budget running out, or a
thrown error. -/
inductive Outcome where
  | finished
  | exhausted
  | errored
deriving DecidableEq

/-- The run's external collaborators: whether browser launch and navigation
succeed, and per step whether perception, the model call, and each page
interaction succeed, plus the page snapshot and the model's raw reply. -/
structure Env where
  launchOk : Bool
  gotoOk : Bool
  perceiveOk : Nat → Bool
  snapshot : Nat → String
  llmOk : Nat → Bool
  reply : Nat → String
  opOk : Nat → PageOp → Bool

/-- The branch the dispatch `switch (action.action)` selects: a page
interaction, the `finish` return, or the logging `default` branch. -/
inductive SwitchCase where
  | op (o : PageOp)
  | finish
  | other

/-- The dispatch switch of `main` (src/main.ts lines 168-185) as a function of
the parsed action object: strict string comparison on the `action` field, with
every other value (another kind, a non-string, or an absent field) falling to
the `default` branch. -/
def switchOf (action : Json) : SwitchCase :=
  match getField action "action" with
  | some (.str a) =>
    if a = "fill" then .op (.fill (getField action "label") (getField action "value"))
    else if a = "click" then .op (.click (getField action "role") (getField action "name"))
    else if a = "select" then .op (.select (getField action "label") (getField action "value"))
    else if a = "finish" then .finish
    else .other
  | _ => .other

/-- One iteration of the perceive-think-act loop body of `main`
(src/main.ts lines 129-186), at step index `i`. -/
def runStep (env : Env) (i : Nat) (st : LoopState) : StepSig × LoopState :=
  if env.perceiveOk i = false then (.fatal, st)
  else
    let st1 : LoopState :=
      { st with history := st.history ++ [{ role := .user, content := currentPromptOf (env.snapshot i) }] }
    if env.llmOk i = false then (.fatal, st1)
    else
      let text := env.reply i
      let st2 : LoopState :=
        { st1 with history := st1.history ++ [{ role := .assistant, content := text }] }
      match parseAction text with
      | none =>
        (.next, { st2 with history := st2.history ++ [{ role := .user, content := invalidJsonReply }] })
      | some action =>
        match switchOf action with
        | .op op =>
          if env.opOk i op then (.next, { st2 with trace := st2.trace ++ [op] }) else (.fatal, st2)
        | .finish => (.done, st2)
        | .other => (.next, st2)

/-- The `for` loop of `main`: `fuel` iterations remain, `i` is the current step
index.  Returns the outcome, the final state, and how many times the loop body
was entered. -/
def runLoop (env : Env) : Nat → Nat → LoopState → Outcome × LoopState × Nat
  | 0, _, st => (.exhausted, st, 0)
  | fuel + 1, i, st =>
    let r := runStep env i st
    match r.1 with
    | .next =>
      let q := runLoop env fuel (i + 1) r.2
      (q.1, q.2.1, q.2.2 + 1)
    | .done => (.finished, r.2, 1)
    | .fatal => (.errored, r.2, 1)

/-- The step bound of `main` (src/main.ts line 126). -/
def maxSteps : Nat := 20

/-- The observable result of one invocation of `main`: how the promise settles,
how many times `browser.close()` ran, and the final history, trace and step
count. -/
structure MainResult where
  outcome : Outcome
  closeCalls : Nat
  history : List Msg
  trace : List PageOp
  stepsEntered : Nat

/-- The initial loop state: a conversation history holding exactly the system
message (src/main.ts line 125) and an empty mutation trace. -/
def initState (data : WorkflowData) : LoopState :=
  { history := [{ role := .system, content := systemPromptOf (objectiveOf data) }], trace := [] }

/-- The entry point `main(data)` (src/main.ts lines 94-199).  The
`try/finally` is embedded by accounting one `browser.close()` on every exit
path on which `browser` was assigned: launch failure leaves it undefined, every
later path (navigation failure, finish, budget exhaustion, thrown step error)
closes exactly once. -/
def main (env : Env) (data : WorkflowData) : MainResult :=
  if env.launchOk = false then
    { outcome := .errored, closeCalls := 0, history := [], trace := [], stepsEntered := 0 }
  else if env.gotoOk = false then
    { outcome := .errored, closeCalls := 1, history := [], trace := [], stepsEntered := 0 }
  else
    let r := runLoop env maxSteps 0 (initState data)
    { outcome := r.1, closeCalls := 1, history := r.2.1.history, trace := r.2.1.trace, stepsEntered := r.2.2 }

/-- Whether the returned promise of `main` resolves (finish or budget
exhaustion) rather than rejects (re-thrown error): the caller's entire view of
a `Promise<void>`. -/
def promiseResolves (r : MainResult) : Bool :=
  match r.outcome with
  | .errored => false
  | _ => true

/-! ## Spec-level step classification -/

/-- The page mutation the dispatch switch would attempt for the model reply of
step `i`, if any: `none` when parsing fails, when the action kind is
unrecognized, or for `finish`. -/
def dispatchAttempt (env : Env) (i : Nat) : Option PageOp :=
  match parseAction (env.reply i) with
  | none => none
  | some action =>
    match switchOf action with
    | .op op => some op
    | _ => none

/-- Whether the model reply of step `i` parses to an action whose kind is the
string `finish`. -/
def finishB (env : Env) (i : Nat) : Bool :=
  match parseAction (env.reply i) with
  | some action =>
    match switchOf action with
    | .finish => true
    | _ => false
  | none => false

/-- Whether the model reply of step `i` yields no parseable action (the caught
branch of the parse block). -/
def parseFailB (env : Env) (i : Nat) : Bool :=
  (parseAction (env.reply i)).isNone

/-- The control signal of step `i` as a function of the environment alone:
fatal on a perception failure, a model-call failure, or a failing page
interaction; done on a dispatched `finish`; next otherwise. -/
def stepSignal (env : Env) (i : Nat) : StepSig :=
  if env.perceiveOk i = false then .fatal
  else if env.llmOk i = false then .fatal
  else
    match dispatchAttempt env i with
    | some op => if env.opOk i op then .next else .fatal
    | none => if finishB env i then .done else .next

/-- The number of parse-failure steps among steps `i, i+1, ..., i+n-1`. -/
def countFails (env : Env) (i : Nat) : Nat → Nat
  | 0 => 0
  | n + 1 => (if parseFailB env i then 1 else 0) + countFails env (i + 1) n

/-! ## The HTTP handler (src/server.ts) -/

/-- The handler's observable response: HTTP status and whether `main` was
invoked. -/
structure RunResponse where
  status : Nat
  workflowStarted : Bool
deriving DecidableEq

/-- JavaScript falsiness of an optional string field: absent, or present but
equal to the empty string. -/
def isFalsy : Option String → Bool
  | none => true
  | some s => s == ""

/-- The request handler `runWorkflowHandler` (src/server.ts lines 26-52):
reject with 400 when the body is missing or either required field is falsy;
otherwise invoke the workflow and answer 200 on resolution, 500 on rejection.
`mainRejects` abstracts how the awaited `main(...)` promise settles. -/
def runWorkflowHandler (body : Option WorkflowData) (mainRejects : Bool) : RunResponse :=
  match body with
  | none => { status := 400, workflowStarted := false }
  | some payload =>
    if isFalsy payload.firstName || isFalsy payload.lastName then
      { status := 400, workflowStarted := false }
    else if mainRejects then { status := 500, workflowStarted := true }
    else { status := 200, workflowStarted := true }

/-! ## The page serializer (src/main.ts, getSerializedPage) -/

/-- The element-tag allowlist of `getSerializedPage`'s query
`input, textarea, select, button, a[role="button"], h2`. -/
inductive Tag where
  | input
  | textarea
  | select
  | button
  | aButton
  | h2
deriving DecidableEq

/-- The lowercase tag name rendered for each allowed element kind. -/
def tagNameStr : Tag → String
  | .input => "input"
  | .textarea => "textarea"
  | .select => "select"
  | .button => "button"
  | .aButton => "a"
  | .h2 => "h2"

/-- One option of a selection control, distinguishing its visible text from its
underlying value attribute. -/
structure SelectOption where
  text : String
  valueAttr : String
deriving DecidableEq

/-- The DOM-side data of one element matched by the serializer's query. -/
structure DomElement where
  tag : Tag
  typeAttr : Option String
  nameAttr : Option String
  idAttr : String
  value : String
  options : List SelectOption
  selectedIndex : Int
  textContent : String

/-- A live page as the serializer sees it: the matched elements in document
order, and the page's `label` elements as (for-attribute, text) pairs in
document order. -/
structure Dom where
  elements : List DomElement
  labels : List (String × String)

/-- Model of `el.getAttribute(..) || ''`. -/
def attrOr (o : Option String) : String := o.getD ""

/-- Model of `options[selectedIndex]`: `undefined` for a negative or
out-of-range index. -/
def selectedOption (el : DomElement) : Option SelectOption :=
  if el.selectedIndex < 0 then none
  else el.options.get? el.selectedIndex.toNat

/-- The `value` computed by the serializer (src/main.ts lines 67-75): the field
value for inputs and text areas, the selected option's text for selects, and
the initial empty string otherwise. -/
def elementValue (el : DomElement) : String :=
  if el.tag = .input ∨ el.tag = .textarea then el.value
  else if el.tag = .select then
    match selectedOption el with
    | some o => o.text
    | none => ""
  else ""

/-- The label computed by the serializer (src/main.ts lines 77-80): the trimmed
text of the first `label` element whose `for` attribute equals the element's
id, else the element's own trimmed text content. -/
def resolvedLabel (labels : List (String × String)) (el : DomElement) : String :=
  match labels.find? (fun p => p.1 == el.idAttr) with
  | some p => p.2.trim
  | none => el.textContent.trim

/-- The line rendered for one element (src/main.ts line 82). -/
def serializeElement (labels : List (String × String)) (el : DomElement) : String :=
  "<" ++ tagNameStr el.tag ++ " type=\"" ++ attrOr el.typeAttr ++ "\" name=\"" ++ attrOr el.nameAttr
    ++ "\" value=\"" ++ elementValue el ++ "\">" ++ resolvedLabel labels el
    ++ "</" ++ tagNameStr el.tag ++ ">"

/-- The serializer `getSerializedPage` (src/main.ts lines 60-86): one line per
matched element, joined by newlines. -/
def getSerializedPage (dom : Dom) : String :=
  String.intercalate "\n" (dom.elements.map (serializeElement dom.labels))

/-! ## Spec-side definitions, written from the specification's words -/

/-- Modelled from the spec, section 4.1: the value component of a descriptor —
current field value for text inputs and text areas, the visible text of the
currently selected option for selection controls, empty for all other kinds. -/
def specValue (el : DomElement) : String :=
  match el.tag with
  | .input => el.value
  | .textarea => el.value
  | .select =>
    match selectedOption el with
    | some o => o.text
    | none => ""
  | _ => ""

/-- Modelled from the spec, section 4.1: label resolution order — (a) text of a
label element whose for attribute matches the element's id, else (b) the
element's own trimmed text content, else (c) the empty string. -/
def specLabel (labels : List (String × String)) (el : DomElement) : String :=
  match labels.find? (fun p => p.1 == el.idAttr) with
  | some p => p.2.trim
  | none => if el.textContent.trim = "" then "" else el.textContent.trim

/-- Whether a string is brace-delimited and parses as a JSON object whose
`action` field is one of the four recognized kinds. -/
def recognizedActionJson (s : String) : Bool :=
  (s.data.head? == some '\x7b') && (s.data.getLast? == some '\x7d') &&
  (match jsonParse s.data with
   | some j =>
     match getField j "action" with
     | some (.str a) => a == "fill" || a == "click" || a == "select" || a == "finish"
     | _ => false
   | none => false)

/-- The spec's error taxonomy for a fatal step: a failing upstream collaborator
(perception or the model call) or a dispatch error on the attempted page
interaction. -/
def upstreamOrDispatchError (env : Env) (k : Nat) : Prop :=
  env.perceiveOk k = false ∨ env.llmOk k = false ∨
    ∃ op, dispatchAttempt env k = some op ∧ env.opOk k op = false

/-! ## Concrete data used by counterexamples and witnesses -/

/-- A model output falsifying claim C1 as stated: explanatory prose after the
JSON object that itself contains a closing brace. -/
def c1text : String := "\x7b\"action\": \"finish\"\x7d Done! :-\x7d"

/-- The balanced brace-delimited JSON action substring contained in `c1text`. -/
def c1json : String := "\x7b\"action\": \"finish\"\x7d"

/-- Objective data with just the two required fields. -/
def dataA : WorkflowData :=
  { firstName := some "Ann", lastName := some "Lee", dateOfBirth := none, medicalId := none,
    gender := none, bloodType := none, allergies := none, currentMedications := none,
    emergencyContactName := none, emergencyContactPhone := none }

/-- A run whose model immediately replies with a `finish` action. -/
def envFinish : Env :=
  { launchOk := true, gotoOk := true, perceiveOk := fun _ => true, snapshot := fun _ => "",
    llmOk := fun _ => true, reply := fun _ => "\x7b\"action\": \"finish\"\x7d",
    opOk := fun _ _ => true }

/-- A run whose model replies with plain prose containing no JSON. -/
def envNoJson : Env :=
  { envFinish with reply := fun _ => "I will think about it." }

/-- A run whose model replies with an unrecognized action kind. -/
def envUnknown : Env :=
  { envFinish with reply := fun _ => "\x7b\"action\": \"dance\"\x7d" }

/-- A run whose model call fails on every step. -/
def envLlmFail : Env :=
  { envFinish with llmOk := fun _ => false }

/-- A selection control whose selected option has distinct visible text and
value attribute. -/
def elSelW : DomElement :=
  { tag := .select, typeAttr := none, nameAttr := some "bloodType", idAttr := "bt", value := "",
    options := [{ text := "Visible", valueAttr := "hidden" }], selectedIndex := 0,
    textContent := "VisibleOther" }

/-- A button element. -/
def elBtnW : DomElement :=
  { tag := .button, typeAttr := some "submit", nameAttr := none, idAttr := "", value := "ignored",
    options := [], selectedIndex := -1, textContent := "Submit" }

/-- A text input with an associated label element. -/
def elInputW : DomElement :=
  { tag := .input, typeAttr := some "text", nameAttr := some "firstName", idAttr := "fname",
    value := "Ann", options := [], selectedIndex := -1, textContent := "" }

/-- One label element pointing at `elInputW`. -/
def labelsW : List (String × String) := [("fname", "  First Name  ")]

/-- A request body whose required `firstName` is present but empty. -/
def payloadC10 : WorkflowData :=
  { firstName := some "", lastName := some "Lee", dateOfBirth := none, medicalId := none,
    gender := none, bloodType := none, allergies := none, currentMedications := none,
    emergencyContactName := none, emergencyContactPhone := none }

/-! ## Lemmas about the extraction step -/

lemma mem_of_getLast_eq {l : List Char} {x : Char} (h : l.getLast? = some x) : x ∈ l := by
  have hx : x ∈ l.getLast? := by simp [Option.mem_def, h]
  rcases List.mem_getLast?_eq_getLast hx with ⟨hne, rfl⟩
  exact List.getLast_mem hne

lemma dropWhile_append_of_forall {p : Char → Bool} {l1 l2 : List Char}
    (h : ∀ c ∈ l1, p c = true) : (l1 ++ l2).dropWhile p = l2.dropWhile p := by
  induction l1 with
  | nil => simp
  | cons a t ih =>
    simp only [List.cons_append, List.dropWhile_cons]
    rw [h a (by simp), if_pos rfl]
    exact ih (fun c hc => h c (by simp [hc]))

/-- Characters before the first opening brace are skipped by the regex search. -/
lemma extractJson_skip_prose (p : List Char) (hp : '\x7b' ∉ p) (rest : List Char) :
    extractJson (p ++ rest) = extractJson rest := by
  induction p with
  | nil => rfl
  | cons c t ih =>
    have hc : ¬(c = '\x7b' ∧ '\x7d' ∈ t ++ rest) := by
      rintro ⟨rfl, -⟩
      exact hp (by simp)
    simp only [List.cons_append, extractJson, List.append_eq]
    rw [if_neg hc]
    exact ih (fun h => hp (List.mem_cons_of_mem _ h))

/-- With no closing brace in the tail, the greedy match ends at the last
closing brace of the middle part. -/
lemma dropAfterLastClose_append {s q : List Char} (hq : '\x7d' ∉ q)
    (hlast : s.getLast? = some '\x7d') : dropAfterLastClose (s ++ q) = s := by
  unfold dropAfterLastClose
  rw [List.reverse_append]
  rw [dropWhile_append_of_forall (fun c hc => by
    have : c ≠ '\x7d' := fun h => hq (by simpa [h] using List.mem_reverse.mp hc)
    simp [this])]
  have hhead : s.reverse.head? = some '\x7d' := by
    rw [List.head?_reverse, hlast]
  rcases hsr : s.reverse with _ | ⟨a, t⟩
  · rw [hsr] at hhead; simp at hhead
  · rw [hsr] at hhead
    simp only [List.head?_cons, Option.some.injEq] at hhead
    subst hhead
    rw [List.dropWhile_cons, if_neg (by simp)]
    rw [← hsr, List.reverse_reverse]

/-! ## Lemmas about the loop -/

/-- The control signal of a step depends only on the environment, not on the
accumulated state. -/
lemma runStep_fst (env : Env) (i : Nat) (st : LoopState) :
    (runStep env i st).1 = stepSignal env i := by
  unfold runStep stepSignal dispatchAttempt finishB
  cases hperc : env.perceiveOk i
  · simp [hperc]
  · cases hllm : env.llmOk i
    · simp [hperc, hllm]
    · simp only [hperc, hllm]
      rcases hpa : parseAction (env.reply i) with _ | action <;> simp only [hpa]
      · simp
      · (repeat' split) <;> simp_all

/-- A step is fatal exactly on an upstream collaborator failure (perception or
model call) or a failing page interaction of a dispatched fill, click or
select. -/
lemma stepSignal_fatal_iff (env : Env) (i : Nat) :
    stepSignal env i = .fatal ↔
      (env.perceiveOk i = false ∨ env.llmOk i = false ∨
        ∃ op, dispatchAttempt env i = some op ∧ env.opOk i op = false) := by
  unfold stepSignal
  cases hperc : env.perceiveOk i
  · simp [hperc]
  · cases hllm : env.llmOk i
    · simp [hperc, hllm]
    · try simp only [hperc, hllm]
      rcases hda : dispatchAttempt env i with _ | op <;> try simp only [hda]
      · cases hfin : finishB env i <;> simp [hfin, hperc, hllm, hda]
      · cases hop : env.opOk i op <;> simp [hop, hperc, hllm, hda]

/-- Each step only appends to the conversation history. -/
lemma runStep_history_extend (env : Env) (i : Nat) (st : LoopState) :
    st.history <+: ((runStep env i st).2).history := by
  unfold runStep
  (repeat' split) <;> try simp
  all_goals try split
  all_goals try simp
  all_goals try split
  all_goals try simp
  all_goals try split
  all_goals simp

/-- On a step whose perception and model call both succeed, the history grows
by exactly two messages, plus one more on a parse failure. -/
lemma runStep_history_length (env : Env) (i : Nat) (st : LoopState)
    (hp : env.perceiveOk i = true) (hl : env.llmOk i = true) :
    ((runStep env i st).2).history.length
      = st.history.length + 2 + (if parseFailB env i then 1 else 0) := by
  unfold runStep parseFailB
  (repeat' split) <;> try simp_all
  all_goals try split
  all_goals try simp_all
  all_goals try split
  all_goals try simp_all
  all_goals try split
  all_goals simp_all

/-- The loop body is entered at most `fuel` times. -/
lemma runLoop_steps_le (env : Env) : ∀ fuel i st, (runLoop env fuel i st).2.2 ≤ fuel := by
  intro fuel
  induction fuel with
  | zero => intro i st; simp [runLoop]
  | succ n ih =>
    intro i st
    simp only [runLoop]
    cases h : (runStep env i st).1
    · simpa using Nat.succ_le_succ (ih (i + 1) (runStep env i st).2)
    · simp
    · simp

/-- When every one of the `fuel` steps signals `next`, the loop runs all of
them and exhausts its budget. -/
lemma runLoop_all_next (env : Env) : ∀ fuel i st,
    (∀ k, k < fuel → stepSignal env (i + k) = .next) →
    (runLoop env fuel i st).1 = .exhausted ∧ (runLoop env fuel i st).2.2 = fuel := by
  intro fuel
  induction fuel with
  | zero => intro i st _; simp [runLoop]
  | succ n ih =>
    intro i st h
    have h0 : stepSignal env i = .next := by simpa using h 0 (Nat.succ_pos n)
    simp only [runLoop, runStep_fst, h0]
    have hrest : ∀ k, k < n → stepSignal env (i + 1 + k) = .next := by
      intro k hk
      have := h (k + 1) (Nat.succ_lt_succ hk)
      rwa [show i + (k + 1) = i + 1 + k by omega] at this
    obtain ⟨hx, hsteps⟩ := ih (i + 1) (runStep env i st).2 hrest
    exact ⟨hx, by simp [hsteps]⟩

/-- Unfolding of one loop iteration in terms of the spec-level step signal. -/
lemma runLoop_succ (env : Env) (fuel i : Nat) (st : LoopState) :
    runLoop env (fuel + 1) i st =
      match stepSignal env i with
      | .next =>
        let q := runLoop env fuel (i + 1) (runStep env i st).2
        (q.1, q.2.1, q.2.2 + 1)
      | .done => (.finished, (runStep env i st).2, 1)
      | .fatal => (.errored, (runStep env i st).2, 1) := by
  simp only [runLoop, runStep_fst]

/-- The loop's outcome, classified by the first step whose signal is not
`next`: errored when it is fatal, finished when it is a dispatched finish, and
exhausted when no such step exists within the budget. -/
lemma runLoop_classify (env : Env) : ∀ fuel i st,
    ((runLoop env fuel i st).1 = .errored ↔
      ∃ k, k < fuel ∧ (∀ m, m < k → stepSignal env (i + m) = .next) ∧ stepSignal env (i + k) = .fatal)
    ∧ ((runLoop env fuel i st).1 = .finished ↔
      ∃ k, k < fuel ∧ (∀ m, m < k → stepSignal env (i + m) = .next) ∧ stepSignal env (i + k) = .done)
    ∧ ((runLoop env fuel i st).1 = .exhausted ↔
      ∀ k, k < fuel → stepSignal env (i + k) = .next) := by
  intro fuel
  induction fuel with
  | zero =>
    intro i st
    refine ⟨?_, ?_, ?_⟩ <;> simp [runLoop]
  | succ n ih =>
    intro i st
    rw [runLoop_succ]
    obtain ⟨ihE, ihF, ihX⟩ := ih (i + 1) (runStep env i st).2
    have hshift : ∀ k : Nat, i + 1 + k = i + (k + 1) := fun k => by omega
    cases hs : stepSignal env i with
    | next =>
      refine ⟨⟨?_, ?_⟩, ⟨?_, ?_⟩, ⟨?_, ?_⟩⟩
      · intro h
        obtain ⟨k, hk, hmono, hkf⟩ := ihE.mp h
        refine ⟨k + 1, Nat.succ_lt_succ hk, ?_, ?_⟩
        · intro m hm
          cases m with
          | zero => simpa using hs
          | succ m' =>
            have hnext := hmono m' (by omega)
            rwa [hshift m'] at hnext
        · rw [← hshift k]; exact hkf
      · rintro ⟨k, hk, hmono, hkf⟩
        cases k with
        | zero =>
          rw [Nat.add_zero, hs] at hkf
          cases hkf
        | succ k' =>
          apply ihE.mpr
          refine ⟨k', by omega, ?_, ?_⟩
          · intro m hm
            have hnext := hmono (m + 1) (by omega)
            rwa [← hshift m] at hnext
          · rw [hshift k']; exact hkf
      · intro h
        obtain ⟨k, hk, hmono, hkf⟩ := ihF.mp h
        refine ⟨k + 1, Nat.succ_lt_succ hk, ?_, ?_⟩
        · intro m hm
          cases m with
          | zero => simpa using hs
          | succ m' =>
            have hnext := hmono m' (by omega)
            rwa [hshift m'] at hnext
        · rw [← hshift k]; exact hkf
      · rintro ⟨k, hk, hmono, hkf⟩
        cases k with
        | zero =>
          rw [Nat.add_zero, hs] at hkf
          cases hkf
        | succ k' =>
          apply ihF.mpr
          refine ⟨k', by omega, ?_, ?_⟩
          · intro m hm
            have hnext := hmono (m + 1) (by omega)
            rwa [← hshift m] at hnext
          · rw [hshift k']; exact hkf
      · intro h k hk
        cases k with
        | zero => simpa using hs
        | succ k' =>
          have hnext := ihX.mp h k' (by omega)
          rwa [hshift k'] at hnext
      · intro h
        apply ihX.mpr
        intro k hk
        have hnext := h (k + 1) (Nat.succ_lt_succ hk)
        rwa [← hshift k] at hnext
    | done =>
      refine ⟨⟨?_, ?_⟩, ⟨?_, ?_⟩, ⟨?_, ?_⟩⟩
      · intro h; exact absurd h (by simp)
      · rintro ⟨k, hk, hmono, hkf⟩
        cases k with
        | zero => rw [Nat.add_zero, hs] at hkf; cases hkf
        | succ k' =>
          have hnext := hmono 0 (Nat.succ_pos k')
          rw [Nat.add_zero, hs] at hnext
          cases hnext
      · intro h; exact ⟨0, Nat.succ_pos n, by omega, by rw [Nat.add_zero]; exact hs⟩
      · intro h; rfl
      · intro h; exact absurd h (by simp)
      · intro h
        have hnext := h 0 (Nat.succ_pos n)
        rw [Nat.add_zero, hs] at hnext
        cases hnext
    | fatal =>
      refine ⟨⟨?_, ?_⟩, ⟨?_, ?_⟩, ⟨?_, ?_⟩⟩
      · intro h; exact ⟨0, Nat.succ_pos n, by omega, by rw [Nat.add_zero]; exact hs⟩
      · intro h; rfl
      · intro h; exact absurd h (by simp)
      · rintro ⟨k, hk, hmono, hkf⟩
        cases k with
        | zero => rw [Nat.add_zero, hs] at hkf; cases hkf
        | succ k' =>
          have hnext := hmono 0 (Nat.succ_pos k')
          rw [Nat.add_zero, hs] at hnext
          cases hnext
      · intro h; exact absurd h (by simp)
      · intro h
        have hnext := h 0 (Nat.succ_pos n)
        rw [Nat.add_zero, hs] at hnext
        cases hnext

/-- The whole run only appends to the conversation history. -/
lemma runLoop_history_extend (env : Env) : ∀ fuel i st,
    st.history <+: ((runLoop env fuel i st).2.1).history := by
  intro fuel
  induction fuel with
  | zero => intro i st; simp [runLoop]
  | succ n ih =>
    intro i st
    rw [runLoop_succ]
    cases hs : stepSignal env i with
    | next => exact (runStep_history_extend env i st).trans (ih (i + 1) (runStep env i st).2)
    | done => exact runStep_history_extend env i st
    | fatal => exact runStep_history_extend env i st

/-- History length accounting: when perception and the model call succeed on
every entered step, the history grows by two messages per entered step plus one
per parse failure. -/
lemma runLoop_history_length (env : Env) : ∀ fuel i st,
    (∀ k, k < (runLoop env fuel i st).2.2 →
      env.perceiveOk (i + k) = true ∧ env.llmOk (i + k) = true) →
    ((runLoop env fuel i st).2.1).history.length
      = st.history.length + 2 * (runLoop env fuel i st).2.2
        + countFails env i (runLoop env fuel i st).2.2 := by
  intro fuel
  induction fuel with
  | zero => intro i st _; simp [runLoop, countFails]
  | succ n ih =>
    intro i st h
    rw [runLoop_succ] at h ⊢
    cases hs : stepSignal env i with
    | next =>
      rw [hs] at h
      have h0 : env.perceiveOk (i + 0) = true ∧ env.llmOk (i + 0) = true :=
        h 0 (Nat.succ_pos _)
      rw [Nat.add_zero] at h0
      have hstep := runStep_history_length env i st h0.1 h0.2
      have hrest : ∀ k, k < (runLoop env n (i + 1) (runStep env i st).2).2.2 →
          env.perceiveOk (i + 1 + k) = true ∧ env.llmOk (i + 1 + k) = true := by
        intro k hk
        have hc := h (k + 1) (Nat.succ_lt_succ hk)
        rwa [show i + (k + 1) = i + 1 + k by omega] at hc
      have ihlen := ih (i + 1) (runStep env i st).2 hrest
      show ((runLoop env n (i + 1) (runStep env i st).2).2.1).history.length
        = st.history.length + 2 * ((runLoop env n (i + 1) (runStep env i st).2).2.2 + 1)
          + countFails env i ((runLoop env n (i + 1) (runStep env i st).2).2.2 + 1)
      rw [ihlen, hstep]
      rw [show ∀ m, countFails env i (m + 1)
            = (if parseFailB env i then 1 else 0) + countFails env (i + 1) m from fun m => rfl]
      cases parseFailB env i <;> simp <;> omega
    | done =>
      rw [hs] at h
      have h0 : env.perceiveOk (i + 0) = true ∧ env.llmOk (i + 0) = true :=
        h 0 (Nat.succ_pos _)
      rw [Nat.add_zero] at h0
      have hstep := runStep_history_length env i st h0.1 h0.2
      show ((runStep env i st).2).history.length
        = st.history.length + 2 * 1 + countFails env i 1
      rw [hstep, show countFails env i 1 = (if parseFailB env i then 1 else 0) from by
        simp [countFails]]
    | fatal =>
      rw [hs] at h
      have h0 : env.perceiveOk (i + 0) = true ∧ env.llmOk (i + 0) = true :=
        h 0 (Nat.succ_pos _)
      rw [Nat.add_zero] at h0
      have hstep := runStep_history_length env i st h0.1 h0.2
      show ((runStep env i st).2).history.length
        = st.history.length + 2 * 1 + countFails env i 1
      rw [hstep, show countFails env i 1 = (if parseFailB env i then 1 else 0) from by
        simp [countFails]]

/-- Without parse failures there are no corrective messages to count. -/
lemma countFails_eq_zero (env : Env) : ∀ N i,
    (∀ k, k < N → parseFailB env (i + k) = false) → countFails env i N = 0 := by
  intro N
  induction N with
  | zero => intro i _; rfl
  | succ n ih =>
    intro i h
    have h0 := h 0 (Nat.succ_pos n)
    rw [Nat.add_zero] at h0
    show (if parseFailB env i then 1 else 0) + countFails env (i + 1) n = 0
    rw [h0, ih (i + 1) (fun k hk => by
      have hc := h (k + 1) (Nat.succ_lt_succ hk)
      rwa [show i + (k + 1) = i + 1 + k by omega] at hc)]
    simp

/-- Unfolding of `main` when browser launch and navigation both succeed. -/
lemma main_eq (env : Env) (data : WorkflowData)
    (hl : env.launchOk = true) (hg : env.gotoOk = true) :
    main env data =
      { outcome := (runLoop env maxSteps 0 (initState data)).1,
        closeCalls := 1,
        history := ((runLoop env maxSteps 0 (initState data)).2.1).history,
        trace := ((runLoop env maxSteps 0 (initState data)).2.1).trace,
        stepsEntered := (runLoop env maxSteps 0 (initState data)).2.2 } := by
  unfold main initState
  rw [if_neg (by simp [hl]), if_neg (by simp [hg])]

/-! ## Claim C1 -/

/-- C1 is false as stated: `c1text` contains the balanced brace-delimited JSON
substring `c1json` with the recognized action field `finish`, yet the parser's
greedy match runs to the last closing brace of the whole text, so it does not
extract that substring — and the step degenerates to the parse-failure path,
so no object reaches the dispatcher at all. -/
theorem c1_counterexample :
    (∃ pre post : List Char, c1text.data = pre ++ c1json.data ++ post) ∧
    recognizedActionJson c1json = true ∧
    extractJson c1text.data ≠ some c1json.data ∧
    (parseAction c1text).isNone = true := by
  refine ⟨⟨[], (" Done! :-\x7d").data, by decide⟩, by decide, by decide, by decide⟩

/-- C1 (amended): for every model output of the form `prose ++ J ++ prose'`
where `J` starts with an opening brace and ends with a closing brace, the
leading prose contains no opening brace, and the trailing prose contains no
closing brace, the parser extracts exactly `J`, and the object handed to the
dispatch switch is exactly `JSON.parse` of `J`, regardless of that surrounding
prose. -/
theorem c1_extracts_embedded_object (p s q : List Char)
    (hp : '\x7b' ∉ p) (hq : '\x7d' ∉ q)
    (hhead : s.head? = some '\x7b') (hlast : s.getLast? = some '\x7d') :
    extractJson (p ++ s ++ q) = some s ∧
    ∀ text : String, text.data = p ++ s ++ q → parseAction text = jsonParse s := by
  rcases hs : s with _ | ⟨c, s1⟩
  · rw [hs] at hhead; simp at hhead
  · subst hs
    simp only [List.head?_cons, Option.some.injEq] at hhead
    subst hhead
    have hs1ne : s1 ≠ [] := by
      rintro rfl
      simp only [List.getLast?_singleton, Option.some.injEq] at hlast
      exact absurd hlast (by decide)
    have hlast1 : s1.getLast? = some '\x7d' := by
      rcases s1 with _ | ⟨b, t⟩
      · exact absurd rfl hs1ne
      · rwa [List.getLast?_cons_cons] at hlast
    have hmem : '\x7d' ∈ s1 ++ q := List.mem_append.mpr (Or.inl (mem_of_getLast_eq hlast1))
    have hext : extractJson (p ++ '\x7b' :: s1 ++ q) = some ('\x7b' :: s1) := by
      rw [List.append_assoc, extractJson_skip_prose p hp, List.cons_append]
      simp only [extractJson, List.append_eq]
      rw [if_pos ⟨trivial, hmem⟩]
      rw [dropAfterLastClose_append hq hlast1]
    refine ⟨hext, ?_⟩
    intro text htext
    unfold parseAction
    rw [htext, hext]

/-- Concrete instance of the amended C1, scenario B of the spec: prose on both
sides of a fill action, the leading prose brace-free and the trailing prose
free of closing braces. -/
theorem c1_extracts_embedded_object_witness :
    ('\x7b' ∉ ("Sure, here you go: ").data) ∧ ('\x7d' ∉ (" done.").data) ∧
    extractJson (("Sure, here you go: ").data ++ c1json.data ++ (" done.").data) = some c1json.data := by
  refine ⟨by decide, by decide, ?_⟩
  exact (c1_extracts_embedded_object ("Sure, here you go: ").data c1json.data (" done.").data
    (by decide) (by decide) (by decide) (by decide)).1

/-! ## Further helper lemmas -/

/-- The promise rejects exactly on an errored outcome. -/
lemma promiseResolves_false_iff (r : MainResult) :
    promiseResolves r = false ↔ r.outcome = .errored := by
  cases h : r.outcome <;> simp [promiseResolves, h]

/-- A clean step with unparseable output signals `next`. -/
lemma stepSignal_next_of_parseFail (env : Env) (i : Nat)
    (hp : env.perceiveOk i = true) (hl : env.llmOk i = true)
    (hfail : parseFailB env i = true) : stepSignal env i = .next := by
  have hnone : parseAction (env.reply i) = none := by
    unfold parseFailB at hfail
    exact Option.isNone_iff_eq_none.mp hfail
  unfold stepSignal dispatchAttempt finishB
  rw [if_neg (by simp [hp]), if_neg (by simp [hl]), hnone]
  rfl

/-- The serializer's value component agrees with the specification's one. -/
lemma elementValue_eq_specValue (el : DomElement) : elementValue el = specValue el := by
  unfold elementValue specValue
  cases htag : el.tag <;> simp [htag]

/-- The serializer's label component agrees with the specification's resolution
order. -/
lemma resolvedLabel_eq_specLabel (labels : List (String × String)) (el : DomElement) :
    resolvedLabel labels el = specLabel labels el := by
  unfold resolvedLabel specLabel
  cases hf : labels.find? (fun p => p.1 == el.idAttr)
  · by_cases ht : el.textContent.trim = "" <;> simp [ht]
  · rfl

/-! ## Claims C2 to C10 -/

/-- C2: for every run in which the browser was successfully launched, the
session is closed exactly once, whatever the exit path — normal finish, budget
exhaustion, navigation failure, or a thrown fatal error (the quantification
over the environment covers them all). -/
theorem c2_session_closed_once (env : Env) (data : WorkflowData)
    (h : env.launchOk = true) : (main env data).closeCalls = 1 := by
  unfold main
  rw [if_neg (by simp [h])]
  cases env.gotoOk
  · rw [if_pos rfl]
  · rw [if_neg (by simp)]

/-- Concrete instance of C2 on a finishing run. -/
theorem c2_session_closed_once_witness :
    envFinish.launchOk = true ∧ (main envFinish dataA).closeCalls = 1 :=
  ⟨rfl, c2_session_closed_once envFinish dataA rfl⟩

/-- C3: the entry point resolves on a dispatched finish and on budget
exhaustion; it rejects exactly when an upstream collaborator error or a
dispatch error occurs (first such step before any finish); and budget
exhaustion is indistinguishable from success at the invocation boundary of a
`Promise<void>`. -/
theorem c3_resolution_boundary (env : Env) (data : WorkflowData) :
    ((main env data).outcome = .finished ∨ (main env data).outcome = .exhausted →
      promiseResolves (main env data) = true)
    ∧ (env.launchOk = true → env.gotoOk = true →
        (promiseResolves (main env data) = false ↔
          ∃ k, k < maxSteps ∧ (∀ m, m < k → stepSignal env m = .next) ∧
            upstreamOrDispatchError env k))
    ∧ (∀ r1 r2 : MainResult, r1.outcome = .finished → r2.outcome = .exhausted →
        promiseResolves r1 = promiseResolves r2) := by
  refine ⟨?_, ?_, ?_⟩
  · intro h
    rcases h with h | h <;> simp [promiseResolves, h]
  · intro hl hg
    have hmo : (main env data).outcome = (runLoop env maxSteps 0 (initState data)).1 := by
      rw [main_eq env data hl hg]
    rw [promiseResolves_false_iff, hmo,
      (runLoop_classify env maxSteps 0 (initState data)).1]
    constructor
    · rintro ⟨k, hk, hmono, hkf⟩
      refine ⟨k, hk, ?_, ?_⟩
      · intro m hm
        have hx := hmono m hm
        rwa [Nat.zero_add] at hx
      · have hx := hkf
        rw [Nat.zero_add] at hx
        exact (stepSignal_fatal_iff env k).mp hx
    · rintro ⟨k, hk, hmono, hkf⟩
      refine ⟨k, hk, ?_, ?_⟩
      · intro m hm
        rw [Nat.zero_add]
        exact hmono m hm
      · rw [Nat.zero_add]
        exact (stepSignal_fatal_iff env k).mpr hkf
  · intro r1 r2 h1 h2
    simp [promiseResolves, h1, h2]

/-- Concrete instance of C3: a run whose model call fails on the first step
rejects. -/
theorem c3_resolution_boundary_witness :
    envLlmFail.launchOk = true ∧ envLlmFail.gotoOk = true ∧
    promiseResolves (main envLlmFail dataA) = false := by
  refine ⟨rfl, rfl, ?_⟩
  have h := (c3_resolution_boundary envLlmFail dataA).2.1 rfl rfl
  exact h.mpr ⟨0, by simp [maxSteps], fun m hm => absurd hm (Nat.not_lt_zero m),
    Or.inr (Or.inl rfl)⟩

/-- C4: on a step whose model output yields no parseable JSON, no dispatcher
branch runs and the page mutation trace is unchanged, the history gains the
perception message, the invalid assistant reply, and exactly one corrective
user message, and the loop proceeds to the next step consuming exactly one
unit of the step budget. -/
theorem c4_parse_failure_step (env : Env) (i : Nat) (st : LoopState)
    (hp : env.perceiveOk i = true) (hl : env.llmOk i = true)
    (hfail : parseFailB env i = true) :
    runStep env i st =
      (.next,
        { history := st.history ++
            [{ role := Role.user, content := currentPromptOf (env.snapshot i) },
             { role := Role.assistant, content := env.reply i },
             { role := Role.user, content := invalidJsonReply }],
          trace := st.trace })
    ∧ ∀ fuel, runLoop env (fuel + 1) i st =
        ((runLoop env fuel (i + 1) (runStep env i st).2).1,
         (runLoop env fuel (i + 1) (runStep env i st).2).2.1,
         (runLoop env fuel (i + 1) (runStep env i st).2).2.2 + 1) := by
  have hnone : parseAction (env.reply i) = none := by
    unfold parseFailB at hfail
    exact Option.isNone_iff_eq_none.mp hfail
  constructor
  · unfold runStep
    rw [if_neg (by simp [hp]), if_neg (by simp [hl])]
    simp [hnone]
  · intro fuel
    rw [runLoop_succ, stepSignal_next_of_parseFail env i hp hl hfail]

/-- Concrete instance of C4: prose with no JSON leaves the trace unchanged and
continues. -/
theorem c4_parse_failure_step_witness :
    envNoJson.perceiveOk 0 = true ∧ envNoJson.llmOk 0 = true ∧
    parseFailB envNoJson 0 = true ∧
    (runStep envNoJson 0 (initState dataA)).1 = .next ∧
    ((runStep envNoJson 0 (initState dataA)).2).trace = (initState dataA).trace := by
  have h := c4_parse_failure_step envNoJson 0 (initState dataA) rfl rfl (by decide)
  refine ⟨rfl, rfl, by decide, ?_, ?_⟩
  · rw [h.1]
  · rw [h.1]

/-- C5: the conversation history is append-only at every step and across the
whole run, and after `N` entered steps whose perception and model calls all
succeeded its length is `1 + 2N` plus one per parse-failure step — exactly
`1 + 2N` when no step failed to parse. -/
theorem c5_history_append_only_length (env : Env) (data : WorkflowData) :
    (∀ i st, st.history <+: ((runStep env i st).2).history)
    ∧ (env.launchOk = true → env.gotoOk = true →
        (initState data).history <+: (main env data).history)
    ∧ (∀ N, env.launchOk = true → env.gotoOk = true →
        (main env data).stepsEntered = N →
        (∀ k, k < N → env.perceiveOk k = true ∧ env.llmOk k = true) →
        (main env data).history.length = 1 + 2 * N + countFails env 0 N
        ∧ ((∀ k, k < N → parseFailB env k = false) →
            (main env data).history.length = 1 + 2 * N)) := by
  refine ⟨runStep_history_extend env, ?_, ?_⟩
  · intro hl hg
    rw [main_eq env data hl hg]
    exact runLoop_history_extend env maxSteps 0 (initState data)
  · intro N hl hg hsteps hclean
    have hmain := main_eq env data hl hg
    have hstepsr : (runLoop env maxSteps 0 (initState data)).2.2 = N := by
      rw [← hsteps, hmain]
    have hlen := runLoop_history_length env maxSteps 0 (initState data) (by
      intro k hk
      rw [hstepsr] at hk
      rw [Nat.zero_add]
      exact hclean k hk)
    have hformula : (main env data).history.length = 1 + 2 * N + countFails env 0 N := by
      rw [hmain]
      show ((runLoop env maxSteps 0 (initState data)).2.1).history.length
        = 1 + 2 * N + countFails env 0 N
      rw [hlen, hstepsr]
      simp [initState]
    refine ⟨hformula, ?_⟩
    intro hnf
    rw [hformula, countFails_eq_zero env N 0 (by
      intro k hk
      rw [Nat.zero_add]
      exact hnf k hk)]
    omega

/-- Concrete instance of C5: one clean finishing step yields a three-message
history. -/
theorem c5_history_append_only_length_witness :
    (main envFinish dataA).stepsEntered = 1 ∧
    (main envFinish dataA).history.length = 1 + 2 * 1 := by
  have h := (c5_history_append_only_length envFinish dataA).2.2 1 rfl rfl (by decide)
    (fun k _ => ⟨rfl, rfl⟩)
  exact ⟨by decide, h.2 (fun k _ => rfl)⟩

/-- C8: a parsed action whose kind is outside fill, click, select and finish
falls to the logging default branch: the mutation trace is unchanged and the
step signals a plain continue, never a fatal error. -/
theorem c8_unknown_action_noop (env : Env) (i : Nat) (st : LoopState) (action : Json)
    (hp : env.perceiveOk i = true) (hl : env.llmOk i = true)
    (hpa : parseAction (env.reply i) = some action)
    (hunk : ∀ a : String, getField action "action" = some (.str a) →
      a ≠ "fill" ∧ a ≠ "click" ∧ a ≠ "select" ∧ a ≠ "finish") :
    runStep env i st =
      (.next,
        { history := st.history ++
            [{ role := Role.user, content := currentPromptOf (env.snapshot i) },
             { role := Role.assistant, content := env.reply i }],
          trace := st.trace }) := by
  have hsw : switchOf action = .other := by
    unfold switchOf
    rcases hga : getField action "action" with _ | val
    · simp [hga]
    · cases val with
      | str a =>
        obtain ⟨h1, h2, h3, h4⟩ := hunk a hga
        simp [hga, h1, h2, h3, h4]
      | null => simp [hga]
      | bool b => simp [hga]
      | num lx => simp [hga]
      | arr el => simp [hga]
      | obj fs => simp [hga]
  unfold runStep
  rw [if_neg (by simp [hp]), if_neg (by simp [hl])]
  simp [hpa, hsw]

/-- Concrete instance of C8: the action kind `dance` is a no-op continue. -/
theorem c8_unknown_action_noop_witness :
    parseAction (envUnknown.reply 0) = some (Json.obj [("action", Json.str "dance")]) ∧
    (runStep envUnknown 0 (initState dataA)).1 = .next ∧
    ((runStep envUnknown 0 (initState dataA)).2).trace = (initState dataA).trace := by
  have hpa : parseAction (envUnknown.reply 0)
      = some (Json.obj [("action", Json.str "dance")]) := by rfl
  have h := c8_unknown_action_noop envUnknown 0 (initState dataA)
    (Json.obj [("action", Json.str "dance")]) rfl rfl hpa (fun a ha => by
      have hd : (some (Json.str "dance") : Option Json) = some (Json.str a) := ha
      have hstr : Json.str "dance" = Json.str a := Option.some.inj hd
      have ha3 : "dance" = a := by injection hstr
      subst ha3
      exact ⟨by decide, by decide, by decide, by decide⟩)
  refine ⟨hpa, ?_, ?_⟩
  · rw [h]
  · rw [h]

/-- C9: the loop body is entered at most `maxSteps = 20` times, and when no
step finishes or throws within the budget the loop stops exactly after the
twentieth step with the exhausted outcome. -/
theorem c9_step_budget (env : Env) (data : WorkflowData) :
    maxSteps = 20
    ∧ (main env data).stepsEntered ≤ 20
    ∧ (env.launchOk = true → env.gotoOk = true →
        (∀ k, k < 20 → stepSignal env k = .next) →
        (main env data).outcome = .exhausted ∧ (main env data).stepsEntered = 20) := by
  refine ⟨rfl, ?_, ?_⟩
  · unfold main
    cases env.launchOk
    · rw [if_pos rfl]
      simp
    · rw [if_neg (by simp)]
      cases env.gotoOk
      · rw [if_pos rfl]
        simp
      · rw [if_neg (by simp)]
        exact runLoop_steps_le env maxSteps 0 (initState data)
  · intro hl hg hnext
    rw [main_eq env data hl hg]
    have h := runLoop_all_next env maxSteps 0 (initState data) (fun k hk => by
      rw [Nat.zero_add]
      exact hnext k hk)
    exact ⟨h.1, h.2⟩

/-- Concrete instance of C9: a model that only ever emits an unrecognized
action exhausts all twenty steps. -/
theorem c9_step_budget_witness :
    (main envUnknown dataA).stepsEntered ≤ 20 ∧
    (main envUnknown dataA).outcome = .exhausted ∧
    (main envUnknown dataA).stepsEntered = 20 := by
  have h := c9_step_budget envUnknown dataA
  have hx := h.2.2 rfl rfl (fun k _ => rfl)
  exact ⟨h.2.1, hx.1, hx.2⟩

/-- C6: the serialized page is one line per element joined by newlines, and the
value field of each line is the current field value for text inputs and text
areas, the visible text of the currently selected option for selection
controls, and the empty string for every other element kind. -/
theorem c6_serializer_value (dom : Dom) :
    getSerializedPage dom = String.intercalate "\n" (dom.elements.map (fun el =>
      "<" ++ tagNameStr el.tag ++ " type=\"" ++ attrOr el.typeAttr ++ "\" name=\""
        ++ attrOr el.nameAttr ++ "\" value=\"" ++ specValue el ++ "\">"
        ++ resolvedLabel dom.labels el ++ "</" ++ tagNameStr el.tag ++ ">"))
    ∧ (∀ el : DomElement, el.tag = .input ∨ el.tag = .textarea → specValue el = el.value)
    ∧ (∀ (el : DomElement) (o : SelectOption), el.tag = .select → selectedOption el = some o →
        specValue el = o.text)
    ∧ (∀ el : DomElement, el.tag ≠ .input → el.tag ≠ .textarea → el.tag ≠ .select →
        specValue el = "") := by
  refine ⟨?_, ?_, ?_, ?_⟩
  · unfold getSerializedPage
    congr 1
    apply List.map_congr_left
    intro el _
    unfold serializeElement
    rw [elementValue_eq_specValue]
  · intro el h
    rcases h with h | h <;> simp [specValue, h]
  · intro el o htag hsel
    simp [specValue, htag, hsel]
  · intro el h1 h2 h3
    unfold specValue
    cases htag : el.tag <;> simp_all

/-- Concrete instance of C6: the selected option's visible text is used, not
its value attribute, and a button's value is empty. -/
theorem c6_serializer_value_witness :
    specValue elSelW = "Visible" ∧ specValue elBtnW = "" := by
  have h := c6_serializer_value { elements := [elSelW, elBtnW], labels := [] }
  exact ⟨h.2.2.1 elSelW { text := "Visible", valueAttr := "hidden" } rfl (by decide),
    h.2.2.2 elBtnW (by decide) (by decide) (by decide)⟩

/-- C7: each element's label is resolved in order: the text of a label element
whose for attribute matches the element's id, else the element's own trimmed
text content, else the empty string. -/
theorem c7_label_resolution (labels : List (String × String)) (el : DomElement) :
    resolvedLabel labels el = specLabel labels el
    ∧ (∀ p : String × String, labels.find? (fun q => q.1 == el.idAttr) = some p →
        specLabel labels el = p.2.trim)
    ∧ (labels.find? (fun q => q.1 == el.idAttr) = none →
        specLabel labels el = if el.textContent.trim = "" then "" else el.textContent.trim) := by
  refine ⟨resolvedLabel_eq_specLabel labels el, ?_, ?_⟩
  · intro p hf
    simp [specLabel, hf]
  · intro hf
    simp [specLabel, hf]

/-- Concrete instance of C7: a label element of matching for attribute wins. -/
theorem c7_label_resolution_witness :
    labelsW.find? (fun q => q.1 == elInputW.idAttr) = some ("fname", "  First Name  ") ∧
    specLabel labelsW elInputW = ("  First Name  ").trim := by
  have h := c7_label_resolution labelsW elInputW
  refine ⟨by decide, ?_⟩
  exact h.2.1 ("fname", "  First Name  ") (by decide)

/-- C10: a request body whose firstName or lastName is present but empty is
rejected with status 400 and the workflow is never started — the validation
rejects falsy fields, not only absent ones. -/
theorem c10_empty_required_field_rejected (payload : WorkflowData) (mainRejects : Bool)
    (h : payload.firstName = some "" ∨ payload.lastName = some "") :
    runWorkflowHandler (some payload) mainRejects
      = { status := 400, workflowStarted := false } := by
  have hx : (isFalsy payload.firstName || isFalsy payload.lastName) = true := by
    rcases h with h | h
    · rw [show isFalsy payload.firstName = true from by rw [h]; rfl]
      rfl
    · rw [show isFalsy payload.lastName = true from by rw [h]; rfl, Bool.or_true]
  unfold runWorkflowHandler
  simp [hx]

/-- Concrete instance of C10: an empty firstName is rejected without starting
the workflow. -/
theorem c10_empty_required_field_rejected_witness :
    payloadC10.firstName = some "" ∧
    runWorkflowHandler (some payloadC10) false
      = { status := 400, workflowStarted := false } :=
  ⟨rfl, c10_empty_required_field_rejected payloadC10 false (Or.inl rfl)⟩

end FormAgent
